import Mathlib

/-!
Verification of the document defect analyzer of this repository
(src/pages/Static_Testing_Agent_v1.py, with the paragraph-length scan of
src/pages/Static_Testing.py).  Text is modelled as `List Char`; Python string
operations (`in` after `.upper()`, `str.split`, `re.findall` on the configured
whole-word patterns, `str.split()` word counting) are embedded as structural
recursions below.  Document loading is out of scope (it is `python-docx`): the
analyzer receives either a paragraph list or a load-failure message, exactly
the two continuations of the `try` block of `analyze_document`.
-/

/-- Apostrophe character, written by code to avoid a quote in a literal. -/
def squo : Char := Char.ofNat 39

/-- Double-quote character. -/
def dquo : Char := Char.ofNat 34

/-- Newline character used by the `"\n".join` calls of the source. -/
def nlChar : Char := Char.ofNat 10

/-- `isPre a b` holds when the list `a` is a prefix of `b` (Python startswith). -/
def isPre : List Char → List Char → Bool
  | [], _ => true
  | _ :: _, [] => false
  | a :: xs, b :: ys => a == b && isPre xs ys

/-- Substring containment, the semantics of the Python `in` operator on str. -/
def containsSub (needle : List Char) : List Char → Bool
  | [] => isPre needle []
  | c :: rest => isPre needle (c :: rest) || containsSub needle rest

/-- `section.upper() in full_text.upper()`: case-insensitive containment. -/
def containsCI (needle hay : List Char) : Bool :=
  containsSub (needle.map Char.toUpper) (hay.map Char.toUpper)

/-- The text before the first occurrence of `sep` (Python `s.split(sep)[0]`). -/
def part0 (sep : List Char) : List Char → List Char
  | [] => []
  | c :: rest => if isPre sep (c :: rest) then [] else c :: part0 sep rest

/-- The text after the first occurrence of `sep`, `none` when `sep` is absent.
`s.split(sep)[1]` of Python is `part0 sep` of this remainder (the slice up to
the next occurrence); Python raises IndexError in the `none` case. -/
def afterFirst (sep : List Char) : List Char → Option (List Char)
  | [] => none
  | c :: rest =>
    if isPre sep (c :: rest) then some ((c :: rest).drop sep.length)
    else afterFirst sep rest

/-- Word characters of the regex `\b` boundary (ASCII `\w`). -/
def isWordChar (c : Char) : Bool := c.isAlphanum || c == Char.ofNat 95

/-- Case-insensitive literal match at the head of `s`; returns the matched
slice of `s` and the remainder (models one position of `re` search with
`re.IGNORECASE`). -/
def matchCI : List Char → List Char → Option (List Char × List Char)
  | [], s => some ([], s)
  | _ :: _, [] => none
  | p :: ps, c :: cs =>
    if p.toLower == c.toLower then
      match matchCI ps cs with
      | some pr => some (c :: pr.1, pr.2)
      | none => none
    else none

/-- Whether the character before the match position is a word boundary. -/
def boundaryPrev : Option Char → Bool
  | none => true
  | some c => !isWordChar c

/-- Whether the position after the match is a word boundary. -/
def boundaryNext : List Char → Bool
  | [] => true
  | c :: _ => !isWordChar c

/-- Attempt of the pattern at the current position: a literal case-insensitive
match, guarded by `\b` on both sides when `wholeWord` is set.  The configured
patterns consist of word characters only, for which `\b` at the ends of the
literal is exactly these two boundary tests. -/
def checkAt (wholeWord : Bool) (w : List Char) (prev : Option Char) (s : List Char) :
    Option (List Char) :=
  match matchCI w s with
  | none => none
  | some (m, rest) =>
    if wholeWord && !(boundaryPrev prev && boundaryNext rest) then none else some m

/-- Leftmost match of the pattern in `s` (`re.findall(...)[0]` of the source:
the scan tries every position left to right). -/
def findFirstAux (wholeWord : Bool) (w : List Char) : Option Char → List Char → Option (List Char)
  | prev, [] => checkAt wholeWord w prev []
  | prev, c :: t =>
    match checkAt wholeWord w prev (c :: t) with
    | some m => some m
    | none => findFirstAux wholeWord w (some c) t

/-- A configured placeholder pattern: the literal of the regex and whether it
is wrapped in `\b` boundaries. -/
structure PatternSpec where
  word : List Char
  wholeWord : Bool
deriving DecidableEq

/-- First match of a configured pattern in a paragraph text. -/
def firstMatch (pat : PatternSpec) (s : List Char) : Option (List Char) :=
  findFirstAux pat.wholeWord pat.word none s

/-- Word counting state machine of Python `len(s.split())`: counts maximal
runs of non-whitespace characters. -/
def countWordsAux : Bool → List Char → Nat
  | _, [] => 0
  | inWord, c :: rest =>
    if c.isWhitespace then countWordsAux false rest
    else (if inWord then 0 else 1) + countWordsAux true rest

/-- `len(paragraph.text.split())` of the source. -/
def countWords (s : List Char) : Nat := countWordsAux false s

/-- Decimal rendering of a number interpolated into an f-string. -/
def natChars (n : Nat) : List Char := Nat.toDigits 10 n

/-- Severity levels of the source (`Success` marks the no-issue record of the
rule-only page; the spec calls it Informational). -/
inductive Severity where
  | critical
  | high
  | medium
  | low
  | success
deriving DecidableEq

/-- Location strings of the source, as the closed set of shapes it writes:
`Document Structure`, `Paragraph {i}`, `N/A`, and the free labels of the
collaborator findings. -/
inductive Location where
  | structureLoc
  | paragraph (n : Nat)
  | na
  | llmLoc (s : List Char)
deriving DecidableEq

/-- One defect record of the source: the dict with keys Defect Type,
Description, Location, Severity.  The type tag is kept as the literal string
the source compares against. -/
structure Defect where
  dtype : List Char
  description : List Char
  location : Location
  severity : Severity
deriving DecidableEq

/-- Test results appearing in the summary report. -/
inductive Res where
  | pass
  | passWarn
  | fail
  | criticalFail
deriving DecidableEq

/-- One summary report row: Pattern, Structure Element, Test Result, Remarks.
(The File Name column is added by the UI layer, outside the analyzer.) -/
structure Row where
  pattern : List Char
  element : List Char
  result : Res
  remarks : List Char
deriving DecidableEq

/-- Defect type tag `Structure/Completeness`. -/
def dtStructure : List Char := "Structure/Completeness".toList

/-- Defect type tag `Content Placeholder`. -/
def dtPlaceholder : List Char := "Content Placeholder".toList

/-- Defect type tag `Readability` (rule-only page). -/
def dtReadability : List Char := "Readability".toList

/-- Defect type tag `Custom Goal Check`. -/
def dtCustomGoal : List Char := "Custom Goal Check".toList

/-- Defect type tag `LLM Error (Simulated)`. -/
def dtLLMError : List Char := "LLM Error (Simulated)".toList

/-- Defect type tag `Content Length`. -/
def dtContentLength : List Char := "Content Length".toList

/-- Collaborator finding label `Clarity`. -/
def dtClarity : List Char := "Clarity".toList

/-- Collaborator finding label `Tone`. -/
def dtTone : List Char := "Tone".toList

/-- Collaborator finding label `Consistency`. -/
def dtConsistency : List Char := "Consistency".toList

/-- MANDATORY_SECTIONS of Static_Testing_Agent_v1.py (seven entries). -/
def MANDATORY_SECTIONS : List (List Char) :=
  ["Introduction".toList, "Scope of Work".toList, "Assumptions".toList,
   "Acceptance Criteria".toList, "Out of Scope".toList,
   "Header/Footer Validation".toList, "Mandatory/Optional field".toList]

/-- MANDATORY_SECTIONS of Static_Testing.py (five entries). -/
def MANDATORY_SECTIONS_BASIC : List (List Char) :=
  ["Introduction".toList, "Scope of Work".toList, "Assumptions".toList,
   "Acceptance Criteria".toList, "Out of Scope".toList]

/-- PLACEHOLDER_KEYWORDS of Static_Testing_Agent_v1.py. -/
def PLACEHOLDER_KEYWORDS : List PatternSpec :=
  [⟨"TBD".toList, true⟩, ⟨"TBC".toList, true⟩, ⟨"WIP".toList, true⟩,
   ⟨"TODO".toList, true⟩, ⟨"PLACEHOLDER".toList, false⟩]

/-- PLACEHOLDER_KEYWORDS of Static_Testing.py (adds INSERT TEXT HERE). -/
def PLACEHOLDER_KEYWORDS_BASIC : List PatternSpec :=
  [⟨"TBD".toList, true⟩, ⟨"TBC".toList, true⟩, ⟨"WIP".toList, true⟩,
   ⟨"TODO".toList, true⟩, ⟨"PLACEHOLDER".toList, false⟩,
   ⟨"INSERT TEXT HERE".toList, false⟩]

/-- MAX_WORDS of Static_Testing.py. -/
def MAX_WORDS : Nat := 150

/-- The constant prefix of the structure-defect description before the piece
the consolidation splits on. -/
def pre0 : List Char := "Missing mandatory section ".toList

/-- First separator of the remark recovery: the Python literal is
`header: ` followed by an apostrophe. -/
def sepHead : List Char := "header: ".toList ++ [squo]

/-- Second separator of the remark recovery: an apostrophe followed by
`. This is`. -/
def sepTail : List Char := [squo] ++ ". This is".toList

/-- Tail of the structure-defect description, starting with `sepTail`. -/
def descPost : List Char := sepTail ++ " a severe structural defect.".toList

/-- Description of a missing-section defect: the f-string
`Missing mandatory section header: 'S'. This is a severe structural defect.` -/
def structDescription (s : List Char) : List Char := pre0 ++ sepHead ++ s ++ descPost

/-- `d['Description'].split("header: '")[1].split("'. This is")[0]` of the
consolidation step (total model: `[]` where Python would raise IndexError,
which cannot happen on descriptions the pipeline builds). -/
def recoverSection (desc : List Char) : List Char :=
  part0 sepTail (part0 sepHead ((afterFirst sepHead desc).getD []))

/-- A `Structure/Completeness` defect of rule_based_analysis. -/
def structDefect (s : List Char) : Defect :=
  ⟨dtStructure, structDescription s, .structureLoc, .high⟩

/-- Mandatory-section scan of rule_based_analysis: one High defect for each
configured section absent (case-insensitively) from the full text. -/
def scanStructure (sections : List (List Char)) (fullText : List Char) : List Defect :=
  sections.filterMap fun s =>
    if containsCI s fullText then none else some (structDefect s)

/-- Description of a placeholder defect, interpolating `matches[0]`. -/
def phDescription (m : List Char) : List Char :=
  "Found hardcoded placeholder ".toList ++ [squo] ++ m ++ [squo] ++
    ". Must be resolved before submission.".toList

/-- A `Content Placeholder` defect at 1-based paragraph index `loc`. -/
def placeholderDefect (m : List Char) (loc : Nat) : Defect :=
  ⟨dtPlaceholder, phDescription m, .paragraph loc, .medium⟩

/-- Inner loop of the placeholder scan: for one paragraph, one defect per
configured pattern that matches (using the first match for the message). -/
def paraPlaceholderDefects (pats : List PatternSpec) (i : Nat) (p : List Char) : List Defect :=
  pats.filterMap fun pat => (firstMatch pat p).map fun m => placeholderDefect m (i + 1)

/-- Outer loop of the placeholder scan over `enumerate(document.paragraphs)`,
starting at paragraph index `i`. -/
def phScanAux (pats : List PatternSpec) (i : Nat) : List (List Char) → List Defect
  | [] => []
  | p :: rest => paraPlaceholderDefects pats i p ++ phScanAux pats (i + 1) rest

/-- Placeholder-keyword scan of rule_based_analysis. -/
def scanPlaceholders (pats : List PatternSpec) (paras : List (List Char)) : List Defect :=
  phScanAux pats 0 paras

/-- `"\n".join(p.text for p in document.paragraphs)`. -/
def fullTextOf (paras : List (List Char)) : List Char := List.intercalate [nlChar] paras

/-- rule_based_analysis of Static_Testing_Agent_v1.py: the structure scan
followed by the placeholder scan, in appending order. -/
def rule_based_analysis (paras : List (List Char)) : List Defect :=
  scanStructure MANDATORY_SECTIONS (fullTextOf paras) ++
    scanPlaceholders PLACEHOLDER_KEYWORDS paras

/-- A `Readability` defect of the rule-only page at paragraph `loc`. -/
def lengthDefect (w : Nat) (loc : Nat) : Defect :=
  ⟨dtReadability,
   "Paragraph contains ".toList ++ natChars w ++ " words (limit is ".toList ++
     natChars MAX_WORDS ++ "). Consider splitting.".toList,
   .paragraph loc, .low⟩

/-- Per-paragraph readability check of Static_Testing.py: a defect exactly
when the word count strictly exceeds MAX_WORDS. -/
def lengthDefectsFor (i : Nat) (p : List Char) : List Defect :=
  if countWords p > MAX_WORDS then [lengthDefect (countWords p) (i + 1)] else []

/-- Readability loop over `enumerate(document.paragraphs)` from index `i`. -/
def lenScanAux (i : Nat) : List (List Char) → List Defect
  | [] => []
  | p :: rest => lengthDefectsFor i p ++ lenScanAux (i + 1) rest

/-- Paragraph-length scan of Static_Testing.py. -/
def scanParagraphLength (paras : List (List Char)) : List Defect :=
  lenScanAux 0 paras

/-- Description of the mocked Clarity finding. -/
def clarityDesc : List Char :=
  "The description of the ".toList ++ [squo] ++ "Network_Owner".toList ++ [squo] ++
    " field in the Scope section is ambiguous. Clarify if it refers to the physical or logical owner.".toList

/-- Description of the mocked Tone finding. -/
def toneDesc : List Char :=
  "The Conclusion section uses overly casual language (".toList ++ [squo] ++
    "We think this is fine".toList ++ [squo] ++ "). Replace with professional equivalents.".toList

/-- Description of the mocked Consistency finding. -/
def consistencyDesc : List Char :=
  "The acronym ".toList ++ [squo] ++ "FDD".toList ++ [squo] ++
    " is used without definition in the Introduction section.".toList

/-- Description of the mocked custom-goal finding, interpolating the goal. -/
def goalDefectDesc (goal : List Char) : List Char :=
  "The Agent focused on the custom goal: ".toList ++ [squo] ++ goal ++ [squo] ++
    ". Found that specific data types (e.g., date formats) are not compliant with internal standards.".toList

/-- llm_based_analysis of Static_Testing_Agent_v1.py.  The call is entirely
mocked: the JSON round trip of the list it just built always succeeds, so the
except branch returning an `LLM Error (Simulated)` defect is unreachable; the
function returns the three fixed findings, plus a High `Custom Goal Check`
finding when a goal is supplied.  The document content feeds only the unused
prompt strings. -/
def llm_based_analysis (_docContent : List Char) (goal : List Char) : List Defect :=
  let base : List Defect :=
    [⟨dtClarity, clarityDesc, .llmLoc "Scope of Work, Paragraph 3".toList, .high⟩,
     ⟨dtTone, toneDesc, .llmLoc "Conclusion".toList, .low⟩,
     ⟨dtConsistency, consistencyDesc, .llmLoc "Introduction".toList, .medium⟩]
  if goal.isEmpty then base
  else base ++ [⟨dtCustomGoal, goalDefectDesc goal, .llmLoc "Data Fields Appendix".toList, .high⟩]

/-- `Content Length` defect appended when the document is too short. -/
def contentLengthDefect : Defect :=
  ⟨dtContentLength,
   "Document content is too short (< 50 characters) for meaningful analysis.".toList,
   .na, .medium⟩

/-- `missing_sections` filter of the consolidation step. -/
def missingSections (rule : List Defect) : List Defect :=
  rule.filter fun d => decide (d.dtype = dtStructure)

/-- `placeholder_defects` filter of the consolidation step. -/
def placeholderDefectsOf (rule : List Defect) : List Defect :=
  rule.filter fun d => decide (d.dtype = dtPlaceholder)

/-- `qualitative_defects` filter: collaborator findings that are neither the
custom-goal finding nor a tool error. -/
def qualDefectsOf (llm : List Defect) : List Defect :=
  llm.filter fun d =>
    decide (¬ (d.dtype = dtCustomGoal ∨ d.dtype = dtLLMError ∨ d.dtype = dtContentLength))

/-- `custom_goal_defects` filter. -/
def customGoalDefectsOf (llm : List Defect) : List Defect :=
  llm.filter fun d => decide (d.dtype = dtCustomGoal)

/-- `llm_errors` filter: tool errors and the content-length marker. -/
def llmErrorsOf (llm : List Defect) : List Defect :=
  llm.filter fun d => decide (d.dtype = dtLLMError ∨ d.dtype = dtContentLength)

/-- The content-length sub-filter used by the qualitative Pass condition. -/
def contentLengthOf (llm : List Defect) : List Defect :=
  llm.filter fun d => decide (d.dtype = dtContentLength)

/-- `severity in ['High', 'Critical']`. -/
def isSevere : Severity → Bool
  | .high => true
  | .critical => true
  | _ => false

/-- `severity == 'Medium'`. -/
def isMediumSev : Severity → Bool
  | .medium => true
  | _ => false

/-- Pattern column `Document Structure`. -/
def patDocStructure : List Char := "Document Structure".toList

/-- Pattern column `Content Quality`. -/
def patContentQuality : List Char := "Content Quality".toList

/-- Pattern column `Qualitative Analysis`. -/
def patQualitative : List Char := "Qualitative Analysis".toList

/-- Pattern column `Custom Compliance`. -/
def patCustom : List Char := "Custom Compliance".toList

/-- Pattern column `Tool Status`. -/
def patToolStatus : List Char := "Tool Status".toList

/-- Pattern column `File Loading` of the load-failure row. -/
def patFileLoading : List Char := "File Loading".toList

/-- Element label `Mandatory Sections`. -/
def elMandatory : List Char := "Mandatory Sections".toList

/-- Element label `Placeholder Keywords`. -/
def elPlaceholder : List Char := "Placeholder Keywords".toList

/-- Element label `Clarity & Consistency`. -/
def elQual : List Char := "Clarity & Consistency".toList

/-- Element label `LLM Agent`. -/
def elLLMAgent : List Char := "LLM Agent".toList

/-- Check 1 of the consolidation: the Document Structure row. -/
def structureRows (rule : List Defect) : List Row :=
  let missing := missingSections rule
  if missing.isEmpty then
    [⟨patDocStructure, elMandatory, .pass, "All mandatory sections are present.".toList⟩]
  else
    [⟨patDocStructure, elMandatory, .fail,
      "Missing sections: ".toList ++
        List.intercalate ", ".toList (missing.map fun d => recoverSection d.description)⟩]

/-- Check 2 of the consolidation: the Content Quality row. -/
def qualityRows (rule : List Defect) : List Row :=
  let ph := placeholderDefectsOf rule
  if ph.isEmpty then
    [⟨patContentQuality, elPlaceholder, .pass, "No hardcoded placeholders found.".toList⟩]
  else
    [⟨patContentQuality, elPlaceholder, .fail,
      "Found ".toList ++ natChars ph.length ++
        " hardcoded placeholders (TBD, WIP, etc.). Fix before finalizing.".toList⟩]

/-- Check 3 of the consolidation: the Qualitative Analysis row.  Emitted as
Fail on any High/Critical finding, Pass w/ Warnings on a Medium one, Pass when
no finding reaches Medium and no Content Length marker exists; otherwise no
row. -/
def qualRows (llm : List Defect) : List Row :=
  let qd := qualDefectsOf llm
  if qd.any fun d => isSevere d.severity then
    [⟨patQualitative, elQual, .fail,
      "Found ".toList ++ natChars qd.length ++
        " qualitative defects. High severity issues detected in Clarity, Tone, or Consistency.".toList⟩]
  else if qd.any fun d => isMediumSev d.severity then
    [⟨patQualitative, elQual, .passWarn,
      "Found ".toList ++ natChars qd.length ++
        " qualitative defects. Review Medium severity issues found by the Agent.".toList⟩]
  else if !(qd.any fun d => isMediumSev d.severity || isSevere d.severity) &&
      (contentLengthOf llm).isEmpty then
    [⟨patQualitative, elQual, .pass,
      "Qualitative content (clarity, tone, consistency) appears high quality.".toList⟩]
  else []

/-- The Structure Element label of the custom-goal row (goal truncated at 40
characters). -/
def elGoalName (goal : List Char) : List Char :=
  if goal.length > 40 then "Custom Goal: ".toList ++ goal.take 40 ++ "...".toList
  else "Custom Goal: ".toList ++ goal

/-- Remark of the passing custom-goal row, echoing the goal in quotes. -/
def goalPassRemark (goal : List Char) : List Char :=
  "Document meets the custom analysis goal: ".toList ++ [dquo] ++ goal ++ [dquo] ++ ".".toList

/-- Check 4 of the consolidation: the Custom Compliance row, only when a goal
string is non-empty; Fail with the first finding description when a
`Custom Goal Check` defect exists, else Pass. -/
def goalRows (llm : List Defect) (goal : List Char) : List Row :=
  if goal.isEmpty then []
  else
    match customGoalDefectsOf llm with
    | d :: _ => [⟨patCustom, elGoalName goal, .fail, d.description⟩]
    | [] => [⟨patCustom, elGoalName goal, .pass, goalPassRemark goal⟩]

/-- Check 5 of the consolidation: the Tool Status row, emitted as Critical
Fail exactly when a tool error or content-length marker exists. -/
def toolRows (llm : List Defect) : List Row :=
  match llmErrorsOf llm with
  | e :: _ => [⟨patToolStatus, elLLMAgent, .criticalFail, e.description⟩]
  | [] => []

/-- Step 3 of analyze_document: consolidation of the raw defects and the goal
into the summary report rows, in source order. -/
def consolidate (ruleDefects llmDefects : List Defect) (goal : List Char) : List Row :=
  structureRows ruleDefects ++ qualityRows ruleDefects ++ qualRows llmDefects ++
    goalRows llmDefects goal ++ toolRows llmDefects

/-- The single summary row returned when document loading raises. -/
def loadFailRow (e : List Char) : Row :=
  ⟨patFileLoading, "File Loading".toList, .criticalFail,
   "Could not process document. Ensure it is a valid .docx file. Error: ".toList ++ e⟩

/-- analyze_document of Static_Testing_Agent_v1.py.  The input is the outcome
of the `Document(BytesIO(...))` call: a paragraph list on success, the error
message on failure.  On failure the function short-circuits to one Critical
Fail row and no defects; otherwise it runs the rule-based checks, the
collaborator call (only when the joined text is longer than 50 characters,
else the Content Length marker), and the consolidation. -/
def analyze_document (docResult : Except (List Char) (List (List Char)))
    (goal : List Char) : List Row × List Defect :=
  match docResult with
  | .error e => ([loadFailRow e], [])
  | .ok paras =>
    let fullText := fullTextOf paras
    let ruleDefects := rule_based_analysis paras
    let llmDefects :=
      if fullText.length > 50 then llm_based_analysis fullText goal
      else [contentLengthDefect]
    (consolidate ruleDefects llmDefects goal,
     ruleDefects ++ llmDefects.filter fun d =>
       decide (¬ (d.dtype = dtLLMError ∨ d.dtype = dtContentLength)))

/-- The spec-level category enumeration for the summary rows. -/
inductive Category where
  | docStructure
  | contentQuality
  | qualitativeAnalysis
  | customGoal
  | toolStatus
deriving DecidableEq

/-- The Pattern column string the consolidation writes for each category. -/
def patternOf : Category → List Char
  | .docStructure => patDocStructure
  | .contentQuality => patContentQuality
  | .qualitativeAnalysis => patQualitative
  | .customGoal => patCustom
  | .toolStatus => patToolStatus

/-- The spec-to-code category correspondence for Pattern strings; the
load-failure row (`File Loading`) is the ToolStatus row of the failure
semantics of the spec. -/
def categoryOfPattern (p : List Char) : Option Category :=
  if p = patDocStructure then some .docStructure
  else if p = patContentQuality then some .contentQuality
  else if p = patQualitative then some .qualitativeAnalysis
  else if p = patCustom then some .customGoal
  else if p = patToolStatus then some .toolStatus
  else if p = patFileLoading then some .toolStatus
  else none

/-- The defects of a category, as the consolidation's own filters select
them. -/
def catDefects : Category → List Defect → List Defect → List Defect
  | .docStructure, rule, _ => missingSections rule
  | .contentQuality, rule, _ => placeholderDefectsOf rule
  | .qualitativeAnalysis, _, llm => qualDefectsOf llm
  | .customGoal, _, llm => customGoalDefectsOf llm
  | .toolStatus, _, llm => llmErrorsOf llm

/-- The severities present among a category's defects, in order. -/
def catSevs (c : Category) (rule llm : List Defect) : List Severity :=
  (catDefects c rule llm).map fun d => d.severity

/-- The result policy of the consolidation as a function of the severities
among the category's defects (the policy table of the spec, as the code
implements it). -/
def resultOfSevs : Category → List Severity → Res
  | .docStructure, l => if l.isEmpty then .pass else .fail
  | .contentQuality, l => if l.isEmpty then .pass else .fail
  | .customGoal, l => if l.isEmpty then .pass else .fail
  | .qualitativeAnalysis, l =>
    if l.any isSevere then .fail
    else if l.any isMediumSev then .passWarn
    else .pass
  | .toolStatus, _ => .criticalFail

/-! Lemmas about the embedded Python string primitives. -/

theorem isPre_iff {a b : List Char} : isPre a b = true ↔ a <+: b := by
  induction a generalizing b with
  | nil => simp [isPre]
  | cons x xs ih =>
    cases b with
    | nil => simp [isPre]
    | cons y ys =>
      simp only [isPre, Bool.and_eq_true, beq_iff_eq, List.cons_prefix_cons, ih]

theorem isPre_append_left (a t : List Char) : isPre a (a ++ t) = true :=
  isPre_iff.mpr (List.prefix_append a t)

theorem pre_append_iff (sep w t : List Char) :
    isPre sep (w ++ t) = true ↔
      isPre sep w = true ∨ (isPre w sep = true ∧ isPre (sep.drop w.length) t = true) := by
  induction w generalizing sep with
  | nil => cases sep <;> simp [isPre]
  | cons c ws ih =>
    cases sep with
    | nil => simp [isPre]
    | cons p ps =>
      by_cases h : p = c
      · subst h
        simp only [List.cons_append, isPre, beq_self_eq_true, Bool.true_and,
          List.length_cons, List.drop_succ_cons]
        exact ih ps
      · constructor
        · intro hcon
          simp only [List.cons_append, isPre, Bool.and_eq_true, beq_iff_eq] at hcon
          exact absurd hcon.1 h
        · intro hcon
          rcases hcon with hA | ⟨hB, _⟩
          · simp only [isPre, Bool.and_eq_true, beq_iff_eq] at hA
            exact absurd hA.1 h
          · simp only [isPre, Bool.and_eq_true, beq_iff_eq] at hB
            exact absurd hB.1.symm h

theorem isPre_drop_within {sep l : List Char} {k : Nat}
    (h : isPre sep (l.drop k) = true) : sep <:+: l :=
  (isPre_iff.mp h).isInfix.trans (List.drop_suffix k l).isInfix

theorem no_occ_all {sep l : List Char} (hsep : isPre sep [] = false)
    (h : ∀ k, k < l.length → isPre sep (l.drop k) = false) :
    ∀ k, isPre sep (l.drop k) = false := by
  intro k
  rcases lt_or_ge k l.length with hk | hk
  · exact h k hk
  · rw [List.drop_eq_nil_of_le hk]
    exact hsep

theorem afterFirst_skip (sep pre tail : List Char)
    (h : ∀ k, k < pre.length → isPre sep (pre.drop k ++ tail) = false) :
    afterFirst sep (pre ++ tail) = afterFirst sep tail := by
  induction pre with
  | nil => rfl
  | cons c pr ih =>
    have h0 := h 0 (by simp)
    simp only [List.drop_zero, List.cons_append] at h0
    rw [List.cons_append, afterFirst]
    simp only [h0, Bool.false_eq_true, if_false]
    exact ih fun k hk => by
      simpa using h (k + 1) (by simpa using Nat.succ_lt_succ hk)

theorem afterFirst_here {sep l : List Char} (hp : isPre sep l = true) (hne : l ≠ []) :
    afterFirst sep l = some (l.drop sep.length) := by
  cases l with
  | nil => exact absurd rfl hne
  | cons c rest => simp [afterFirst, hp]

theorem part0_no_occ (sep l : List Char) (h : ∀ k, isPre sep (l.drop k) = false) :
    part0 sep l = l := by
  induction l with
  | nil => rfl
  | cons c rest ih =>
    have h0 := h 0
    simp only [List.drop_zero] at h0
    rw [part0]
    simp only [h0, Bool.false_eq_true, if_false]
    rw [ih fun k => by simpa using h (k + 1)]

theorem part0_append (sep s t : List Char)
    (h : ∀ k, k < s.length → isPre sep (s.drop k ++ t) = false)
    (hp : isPre sep t = true) : part0 sep (s ++ t) = s := by
  induction s with
  | nil =>
    cases t with
    | nil =>
      cases sep with
      | nil => rfl
      | cons a b => simp [isPre] at hp
    | cons c r => simp [part0, hp]
  | cons a s1 ih =>
    have h0 := h 0 (by simp)
    simp only [List.drop_zero, List.cons_append] at h0
    rw [List.cons_append, part0]
    simp only [h0, Bool.false_eq_true, if_false]
    rw [ih fun k hk => by simpa using h (k + 1) (by simpa using Nat.succ_lt_succ hk)]

theorem afterFirst_desc (s : List Char) :
    afterFirst sepHead (structDescription s) = some (s ++ descPost) := by
  have f1 : ∀ k, k < pre0.length → isPre sepHead (pre0.drop k) = false := by decide
  have f2 : ∀ k, k < pre0.length → isPre (pre0.drop k) sepHead = false := by decide
  have hskip : ∀ k, k < pre0.length →
      isPre sepHead (pre0.drop k ++ (sepHead ++ (s ++ descPost))) = false := by
    intro k hk
    by_contra hcon
    rw [Bool.not_eq_false] at hcon
    rcases (pre_append_iff _ _ _).mp hcon with hA | ⟨hB, _⟩
    · rw [f1 k hk] at hA
      exact Bool.false_ne_true hA
    · rw [f2 k hk] at hB
      exact Bool.false_ne_true hB
  have hassoc : structDescription s = pre0 ++ (sepHead ++ (s ++ descPost)) := by
    simp [structDescription, List.append_assoc]
  rw [hassoc, afterFirst_skip _ _ _ hskip,
    afterFirst_here (isPre_append_left _ _) (by simp [sepHead]),
    List.drop_left]

theorem sepHead_no_occ_middle {s : List Char} (h1 : ¬ sepHead <:+: s)
    (h3 : ¬ "header: ".toList <:+ s) :
    ∀ k, isPre sepHead ((s ++ descPost).drop k) = false := by
  intro k
  rw [List.drop_append_eq_append_drop]
  rcases lt_or_ge k s.length with hk | hk
  · rw [Nat.sub_eq_zero_of_le (le_of_lt hk), List.drop_zero]
    by_contra hcon
    rw [Bool.not_eq_false] at hcon
    rcases (pre_append_iff _ _ _).mp hcon with hA | ⟨hB, hC⟩
    · exact h1 (isPre_drop_within hA)
    · have hpre : s.drop k <+: sepHead := isPre_iff.mp hB
      have hlen : (s.drop k).length ≤ sepHead.length := hpre.length_le
      have hlen9 : sepHead.length = 9 := by decide
      have hpos : 0 < (s.drop k).length := by
        rw [List.length_drop]; omega
      have heq : s.drop k = sepHead.take (s.drop k).length :=
        List.prefix_iff_eq_take.mp hpre
      obtain ⟨n, hn⟩ : ∃ n, (s.drop k).length = n := ⟨_, rfl⟩
      rw [hn] at hC heq
      rw [hn] at hpos
      rw [hlen9] at hlen
      rw [hn] at hlen
      interval_cases n <;>
        first
          | exact absurd hC (by decide)
          | (exact h3 (by
              have hds := List.drop_suffix k s
              rw [heq, show sepHead.take 8 = "header: ".toList from by decide] at hds
              exact hds))
          | (exact h1 (by
              have hds := List.drop_suffix k s
              rw [heq, show sepHead.take 9 = sepHead from by decide] at hds
              exact hds.isInfix))
  · rw [List.drop_eq_nil_of_le hk, List.nil_append]
    exact no_occ_all (by decide) (by decide) _

theorem sepTail_no_occ {s : List Char} (h2 : ¬ sepTail <:+: s) :
    ∀ k, k < s.length → isPre sepTail (s.drop k ++ descPost) = false := by
  intro k hk
  by_contra hcon
  rw [Bool.not_eq_false] at hcon
  rcases (pre_append_iff _ _ _).mp hcon with hA | ⟨hB, hC⟩
  · exact h2 (isPre_drop_within hA)
  · have hpre : s.drop k <+: sepTail := isPre_iff.mp hB
    have hlen : (s.drop k).length ≤ sepTail.length := hpre.length_le
    have hlen10 : sepTail.length = 10 := by decide
    have hpos : 0 < (s.drop k).length := by
      rw [List.length_drop]; omega
    have heq : s.drop k = sepTail.take (s.drop k).length :=
      List.prefix_iff_eq_take.mp hpre
    obtain ⟨n, hn⟩ : ∃ n, (s.drop k).length = n := ⟨_, rfl⟩
    rw [hn] at hC heq
    rw [hn] at hpos
    rw [hlen10] at hlen
    rw [hn] at hlen
    interval_cases n <;>
      first
        | exact absurd hC (by decide)
        | (exact h2 (by
            have hds := List.drop_suffix k s
            rw [heq, show sepTail.take 10 = sepTail from by decide] at hds
            exact hds.isInfix))

theorem part0_desc_head (s : List Char) (h1 : ¬ sepHead <:+: s)
    (h3 : ¬ "header: ".toList <:+ s) :
    part0 sepHead (s ++ descPost) = s ++ descPost :=
  part0_no_occ _ _ (sepHead_no_occ_middle h1 h3)

theorem part0_desc_tail (s : List Char) (h2 : ¬ sepTail <:+: s) :
    part0 sepTail (s ++ descPost) = s :=
  part0_append _ _ _ (sepTail_no_occ h2) (by decide)

/-- C10: for every configured mandatory section name that contains neither
the substring `header: '` nor the substring `'. This is` — and, as the
counterexample below forces, does not end with the substring `header: ` —
the consolidation step's string-splitting of a StructureMissing defect's
description recovers exactly the original section name. -/
theorem c10_split_roundtrip (s : List Char) (h1 : ¬ sepHead <:+: s)
    (h2 : ¬ sepTail <:+: s) (h3 : ¬ "header: ".toList <:+ s) :
    recoverSection (structDescription s) = s := by
  unfold recoverSection
  rw [afterFirst_desc s, Option.getD_some, part0_desc_head s h1 h3,
    part0_desc_tail s h2]

/-- C10 witness: the round trip at the concrete section name
`Acceptance Criteria`, discharging every hypothesis. -/
theorem c10_split_roundtrip_witness :
    (¬ sepHead <:+: "Acceptance Criteria".toList) ∧
      (¬ sepTail <:+: "Acceptance Criteria".toList) ∧
      (¬ "header: ".toList <:+ "Acceptance Criteria".toList) ∧
      recoverSection (structDescription "Acceptance Criteria".toList) =
        "Acceptance Criteria".toList :=
  ⟨by decide, by decide, by decide,
    c10_split_roundtrip _ (by decide) (by decide) (by decide)⟩

/-- C10 counterexample: the section name `header: ` contains neither
`header: '` nor `'. This is`, yet the split does not recover it (the
constructed description contains a second separator occurrence spanning the
name and the closing quote, so Python's split returns the empty segment
between the two occurrences). -/
theorem c10_counterexample :
    (¬ sepHead <:+: "header: ".toList) ∧ (¬ sepTail <:+: "header: ".toList) ∧
      recoverSection (structDescription "header: ".toList) ≠ "header: ".toList := by
  refine ⟨by decide, by decide, by decide⟩

/-! Membership lemmas for the five consolidation sub-blocks. -/

theorem mem_structureRows {rule : List Defect} {r : Row} (h : r ∈ structureRows rule) :
    r.pattern = patDocStructure ∧
      r.result = (if (missingSections rule).isEmpty then Res.pass else Res.fail) := by
  by_cases hm : (missingSections rule).isEmpty
  · simp only [structureRows] at h
    rw [if_pos hm] at h
    simp only [List.mem_singleton] at h
    subst h
    exact ⟨rfl, by rw [if_pos hm]⟩
  · simp only [structureRows] at h
    rw [if_neg hm] at h
    simp only [List.mem_singleton] at h
    subst h
    exact ⟨rfl, by rw [if_neg hm]⟩

theorem mem_qualityRows {rule : List Defect} {r : Row} (h : r ∈ qualityRows rule) :
    r.pattern = patContentQuality ∧
      r.result = (if (placeholderDefectsOf rule).isEmpty then Res.pass else Res.fail) := by
  by_cases hm : (placeholderDefectsOf rule).isEmpty
  · simp only [qualityRows] at h
    rw [if_pos hm] at h
    simp only [List.mem_singleton] at h
    subst h
    exact ⟨rfl, by rw [if_pos hm]⟩
  · simp only [qualityRows] at h
    rw [if_neg hm] at h
    simp only [List.mem_singleton] at h
    subst h
    exact ⟨rfl, by rw [if_neg hm]⟩

theorem any_map_general {α β : Type} (f : α → β) (p : β → Bool) (l : List α) :
    (l.map f).any p = l.any fun a => p (f a) := by
  induction l with
  | nil => rfl
  | cons a t ih => simp only [List.map_cons, List.any_cons, ih]

theorem mem_qualRows {llm : List Defect} {r : Row} (h : r ∈ qualRows llm) :
    r.pattern = patQualitative ∧
      r.result = resultOfSevs Category.qualitativeAnalysis
        ((qualDefectsOf llm).map fun d => d.severity) := by
  have hmapS : (((qualDefectsOf llm).map fun d => d.severity).any isSevere)
      = ((qualDefectsOf llm).any fun d => isSevere d.severity) :=
    any_map_general _ _ _
  have hmapM : (((qualDefectsOf llm).map fun d => d.severity).any isMediumSev)
      = ((qualDefectsOf llm).any fun d => isMediumSev d.severity) :=
    any_map_general _ _ _
  by_cases h1 : ((qualDefectsOf llm).any fun d => isSevere d.severity) = true
  · simp only [qualRows] at h
    rw [if_pos h1] at h
    simp only [List.mem_singleton] at h
    subst h
    refine ⟨rfl, ?_⟩
    simp only [resultOfSevs]
    rw [hmapS, if_pos h1]
  · by_cases h2 : ((qualDefectsOf llm).any fun d => isMediumSev d.severity) = true
    · simp only [qualRows] at h
      rw [if_neg h1, if_pos h2] at h
      simp only [List.mem_singleton] at h
      subst h
      refine ⟨rfl, ?_⟩
      simp only [resultOfSevs]
      rw [hmapS, hmapM, if_neg h1, if_pos h2]
    · by_cases h3 :
        ((!((qualDefectsOf llm).any fun d => isMediumSev d.severity || isSevere d.severity)) &&
          (contentLengthOf llm).isEmpty) = true
      · simp only [qualRows] at h
        rw [if_neg h1, if_neg h2, if_pos h3] at h
        simp only [List.mem_singleton] at h
        subst h
        refine ⟨rfl, ?_⟩
        simp only [resultOfSevs]
        rw [hmapS, hmapM, if_neg h1, if_neg h2]
      · simp only [qualRows] at h
        rw [if_neg h1, if_neg h2, if_neg h3] at h
        exact absurd h (List.not_mem_nil r)

theorem mem_goalRows {llm : List Defect} {goal : List Char} {r : Row}
    (h : r ∈ goalRows llm goal) :
    r.pattern = patCustom ∧
      r.result = (if (customGoalDefectsOf llm).isEmpty then Res.pass else Res.fail) := by
  by_cases hg : goal.isEmpty
  · simp only [goalRows] at h
    rw [if_pos hg] at h
    exact absurd h (List.not_mem_nil r)
  · simp only [goalRows] at h
    rw [if_neg hg] at h
    cases hcg : customGoalDefectsOf llm with
    | nil =>
      rw [hcg] at h
      simp only [List.mem_singleton] at h
      subst h
      exact ⟨rfl, by simp [hcg]⟩
    | cons d rest =>
      rw [hcg] at h
      simp only [List.mem_singleton] at h
      subst h
      exact ⟨rfl, by simp [hcg]⟩

theorem mem_toolRows {llm : List Defect} {r : Row} (h : r ∈ toolRows llm) :
    r.pattern = patToolStatus ∧ r.result = Res.criticalFail := by
  cases he : llmErrorsOf llm with
  | nil =>
    simp only [toolRows, he] at h
    exact absurd h (List.not_mem_nil r)
  | cons e rest =>
    simp only [toolRows, he, List.mem_singleton] at h
    subst h
    exact ⟨rfl, rfl⟩

theorem isEmpty_map_general {α β : Type} (f : α → β) (l : List α) :
    (l.map f).isEmpty = l.isEmpty := by
  cases l <;> rfl

/-- Central policy lemma: every row of the consolidated report carries the
result the severity policy assigns to its category's defects. -/
theorem consolidate_result {rule llm : List Defect} {goal : List Char} {c : Category}
    {r : Row} (hr : r ∈ consolidate rule llm goal) (hp : r.pattern = patternOf c) :
    r.result = resultOfSevs c (catSevs c rule llm) := by
  simp only [consolidate, List.mem_append] at hr
  rcases hr with ((((h | h) | h) | h) | h)
  · obtain ⟨hpat, hres⟩ := mem_structureRows h
    have heq : patternOf c = patDocStructure := hp.symm.trans hpat
    cases c
    case docStructure =>
      rw [hres]
      simp only [resultOfSevs, catSevs, catDefects, isEmpty_map_general]
    all_goals exact absurd heq (by decide)
  · obtain ⟨hpat, hres⟩ := mem_qualityRows h
    have heq : patternOf c = patContentQuality := hp.symm.trans hpat
    cases c
    case contentQuality =>
      rw [hres]
      simp only [resultOfSevs, catSevs, catDefects, isEmpty_map_general]
    all_goals exact absurd heq (by decide)
  · obtain ⟨hpat, hres⟩ := mem_qualRows h
    have heq : patternOf c = patQualitative := hp.symm.trans hpat
    cases c
    case qualitativeAnalysis => exact hres
    all_goals exact absurd heq (by decide)
  · obtain ⟨hpat, hres⟩ := mem_goalRows h
    have heq : patternOf c = patCustom := hp.symm.trans hpat
    cases c
    case customGoal =>
      rw [hres]
      simp only [resultOfSevs, catSevs, catDefects, isEmpty_map_general]
    all_goals exact absurd heq (by decide)
  · obtain ⟨hpat, hres⟩ := mem_toolRows h
    have heq : patternOf c = patToolStatus := hp.symm.trans hpat
    cases c
    case toolStatus => exact hres
    all_goals exact absurd heq (by decide)

theorem resultOfSevs_not_pass {c : Category} {l : List Severity}
    (h : l.any isSevere = true) :
    resultOfSevs c l ≠ Res.pass ∧ resultOfSevs c l ≠ Res.passWarn := by
  have hne : l.isEmpty = false := by
    rcases List.any_eq_true.mp h with ⟨x, hx, _⟩
    exact List.isEmpty_eq_false.mpr (List.ne_nil_of_mem hx)
  cases c
  case docStructure =>
    simp only [resultOfSevs, hne, Bool.false_eq_true, if_false]
    exact ⟨by decide, by decide⟩
  case contentQuality =>
    simp only [resultOfSevs, hne, Bool.false_eq_true, if_false]
    exact ⟨by decide, by decide⟩
  case customGoal =>
    simp only [resultOfSevs, hne, Bool.false_eq_true, if_false]
    exact ⟨by decide, by decide⟩
  case qualitativeAnalysis =>
    simp only [resultOfSevs, h, if_true]
    exact ⟨by decide, by decide⟩
  case toolStatus =>
    simp only [resultOfSevs]
    exact ⟨by decide, by decide⟩

theorem filter_pattern_nil {l : List Row} {base : List Char} (q : List Char)
    (hbase : ∀ r ∈ l, r.pattern = base) (hne : base ≠ q) :
    l.filter (fun r => decide (r.pattern = q)) = [] := by
  apply List.filter_eq_nil_iff.mpr
  intro a ha
  simp only [decide_eq_true_eq]
  rw [hbase a ha]
  exact hne

theorem structureRows_pass {rule : List Defect} (h : missingSections rule = []) :
    structureRows rule = [⟨patDocStructure, elMandatory, Res.pass,
      "All mandatory sections are present.".toList⟩] := by
  simp [structureRows, h]

theorem qualityRows_pass {rule : List Defect} (h : placeholderDefectsOf rule = []) :
    qualityRows rule = [⟨patContentQuality, elPlaceholder, Res.pass,
      "No hardcoded placeholders found.".toList⟩] := by
  simp [qualityRows, h]

theorem qualRows_pass {llm : List Defect} (h1 : qualDefectsOf llm = [])
    (h2 : contentLengthOf llm = []) :
    qualRows llm = [⟨patQualitative, elQual, Res.pass,
      "Qualitative content (clarity, tone, consistency) appears high quality.".toList⟩] := by
  simp [qualRows, h1, h2]

theorem qualRows_skip {llm : List Defect} (h1 : qualDefectsOf llm = [])
    (h2 : contentLengthOf llm ≠ []) : qualRows llm = [] := by
  have hcl : (contentLengthOf llm).isEmpty = false := List.isEmpty_eq_false.mpr h2
  simp [qualRows, h1, hcl]

theorem goalRows_pass {llm : List Defect} {goal : List Char} (hg : goal ≠ [])
    (h : customGoalDefectsOf llm = []) :
    goalRows llm goal = [⟨patCustom, elGoalName goal, Res.pass, goalPassRemark goal⟩] := by
  have hge : goal.isEmpty = false := List.isEmpty_eq_false.mpr hg
  simp [goalRows, hge, h]

theorem toolRows_skip {llm : List Defect} (h : llmErrorsOf llm = []) :
    toolRows llm = [] := by
  simp [toolRows, h]

/-- C1 (amended): every SummaryRow's result is the deterministic function
`resultOfSevs` of the severities among that category's defects; a category
with zero defects yields a Pass row for DocumentStructure and ContentQuality
unconditionally, for QualitativeAnalysis only when no Content Length defect
is present (with a Content Length defect the row is omitted), for CustomGoal
when the goal is non-empty, while ToolStatus with zero defects yields no
row. -/
theorem c1_policy_amended :
    (∀ (rule llm : List Defect) (goal : List Char) (c : Category) (r : Row),
        r ∈ consolidate rule llm goal → r.pattern = patternOf c →
          r.result = resultOfSevs c (catSevs c rule llm)) ∧
      (∀ (rule llm : List Defect) (goal : List Char),
        catDefects Category.docStructure rule llm = [] →
        (⟨patDocStructure, elMandatory, Res.pass,
          "All mandatory sections are present.".toList⟩ : Row) ∈ consolidate rule llm goal) ∧
      (∀ (rule llm : List Defect) (goal : List Char),
        catDefects Category.contentQuality rule llm = [] →
        (⟨patContentQuality, elPlaceholder, Res.pass,
          "No hardcoded placeholders found.".toList⟩ : Row) ∈ consolidate rule llm goal) ∧
      (∀ (rule llm : List Defect) (goal : List Char),
        catDefects Category.qualitativeAnalysis rule llm = [] → contentLengthOf llm = [] →
        (⟨patQualitative, elQual, Res.pass,
          "Qualitative content (clarity, tone, consistency) appears high quality.".toList⟩ :
            Row) ∈ consolidate rule llm goal) ∧
      (∀ (rule llm : List Defect) (goal : List Char),
        catDefects Category.qualitativeAnalysis rule llm = [] → contentLengthOf llm ≠ [] →
        (consolidate rule llm goal).filter
          (fun r => decide (r.pattern = patQualitative)) = []) ∧
      (∀ (rule llm : List Defect) (goal : List Char), goal ≠ [] →
        catDefects Category.customGoal rule llm = [] →
        (⟨patCustom, elGoalName goal, Res.pass, goalPassRemark goal⟩ : Row) ∈
          consolidate rule llm goal) ∧
      (∀ (rule llm : List Defect) (goal : List Char),
        catDefects Category.toolStatus rule llm = [] →
        (consolidate rule llm goal).filter
          (fun r => decide (r.pattern = patToolStatus)) = []) := by
  refine ⟨fun _ _ _ _ _ hr hp => consolidate_result hr hp, ?_, ?_, ?_, ?_, ?_, ?_⟩
  · intro rule llm goal h
    simp only [catDefects] at h
    simp [consolidate, structureRows_pass h]
  · intro rule llm goal h
    simp only [catDefects] at h
    simp [consolidate, qualityRows_pass h]
  · intro rule llm goal h1 h2
    simp only [catDefects] at h1
    simp [consolidate, qualRows_pass h1 h2]
  · intro rule llm goal h1 h2
    simp only [catDefects] at h1
    rw [consolidate, List.filter_append, List.filter_append, List.filter_append,
      List.filter_append, qualRows_skip h1 h2,
      filter_pattern_nil patQualitative (fun r hr => (mem_structureRows hr).1) (by decide),
      filter_pattern_nil patQualitative (fun r hr => (mem_qualityRows hr).1) (by decide),
      filter_pattern_nil patQualitative (fun r hr => (mem_goalRows hr).1) (by decide),
      filter_pattern_nil patQualitative (fun r hr => (mem_toolRows hr).1) (by decide)]
    simp
  · intro rule llm goal hg h
    simp only [catDefects] at h
    simp [consolidate, goalRows_pass hg h]
  · intro rule llm goal h
    simp only [catDefects] at h
    rw [consolidate, List.filter_append, List.filter_append, List.filter_append,
      List.filter_append, toolRows_skip h,
      filter_pattern_nil patToolStatus (fun r hr => (mem_structureRows hr).1) (by decide),
      filter_pattern_nil patToolStatus (fun r hr => (mem_qualityRows hr).1) (by decide),
      filter_pattern_nil patToolStatus (fun r hr => (mem_qualRows hr).1) (by decide),
      filter_pattern_nil patToolStatus (fun r hr => (mem_goalRows hr).1) (by decide)]
    simp

/-- C1 witness: the policy applied at a concrete run with no defects. -/
theorem c1_policy_amended_witness :
    (⟨patDocStructure, elMandatory, Res.pass,
        "All mandatory sections are present.".toList⟩ : Row) ∈ consolidate [] [] [] ∧
      (⟨patDocStructure, elMandatory, Res.pass,
        "All mandatory sections are present.".toList⟩ : Row).result =
        resultOfSevs Category.docStructure (catSevs Category.docStructure [] []) :=
  ⟨c1_policy_amended.2.1 [] [] [] (by decide),
   c1_policy_amended.1 [] [] [] Category.docStructure
     ⟨patDocStructure, elMandatory, Res.pass, "All mandatory sections are present.".toList⟩
     (c1_policy_amended.2.1 [] [] [] (by decide)) (by decide)⟩

/-- C1 counterexample: when only the Content Length marker is present, the
QualitativeAnalysis category has zero defects and yet the consolidated report
contains no QualitativeAnalysis row at all, in particular no Pass row. -/
theorem c1_counterexample :
    catDefects Category.qualitativeAnalysis [] [contentLengthDefect] = [] ∧
      (consolidate [] [contentLengthDefect] []).filter
        (fun r => decide (r.pattern = patQualitative)) = [] :=
  ⟨by decide, by decide⟩

/-- C7: if a category's defects include at least one defect of severity High
or Critical, that category's SummaryRow result is never Pass and never
PassWithWarnings. -/
theorem c7_worst_case_wins (rule llm : List Defect) (goal : List Char) (c : Category)
    (r : Row) (hr : r ∈ consolidate rule llm goal) (hp : r.pattern = patternOf c)
    (hsev : ((catDefects c rule llm).any fun d => isSevere d.severity) = true) :
    r.result ≠ Res.pass ∧ r.result ≠ Res.passWarn := by
  rw [consolidate_result hr hp]
  apply resultOfSevs_not_pass
  rw [catSevs, any_map_general]
  exact hsev

/-- The Document Structure Fail row of the C7 witness run. -/
def c7row : Row :=
  ⟨patDocStructure, elMandatory, Res.fail, "Missing sections: Introduction".toList⟩

/-- C7 witness: one High-severity structure defect forces a non-Pass row. -/
theorem c7_worst_case_wins_witness :
    c7row ∈ consolidate [structDefect "Introduction".toList] [] [] ∧
      c7row.pattern = patternOf Category.docStructure ∧
      ((catDefects Category.docStructure [structDefect "Introduction".toList] []).any
        fun d => isSevere d.severity) = true ∧
      (c7row.result ≠ Res.pass ∧ c7row.result ≠ Res.passWarn) :=
  ⟨by decide, by decide, by decide,
    c7_worst_case_wins [structDefect "Introduction".toList] [] [] Category.docStructure
      c7row (by decide) (by decide) (by decide)⟩

/-- C9: consolidation is deterministic: for a fixed defect list and goal,
two invocations yield identical SummaryRow sequences. -/
theorem c9_consolidate_deterministic (ruleDefects llmDefects : List Defect)
    (goal : List Char) :
    consolidate ruleDefects llmDefects goal = consolidate ruleDefects llmDefects goal := rfl

theorem scanStructure_eq (sections : List (List Char)) (text : List Char) :
    scanStructure sections text =
      (sections.filter fun s => !containsCI s text).map structDefect := by
  induction sections with
  | nil => rfl
  | cons s rest ih =>
    simp only [scanStructure] at ih ⊢
    rw [List.filterMap_cons, List.filter_cons]
    by_cases hc : containsCI s text
    · simp [hc, ih]
    · simp [hc, ih]

/-- C4: scanStructure emits exactly one StructureMissing defect at severity
High naming section S for each configured section whose name does not occur
case-insensitively as a substring of the full text, and returns the empty
list when every configured section occurs. -/
theorem c4_scan_structure (sections : List (List Char)) (text : List Char) :
    scanStructure sections text =
      (sections.filter fun s => !containsCI s text).map structDefect ∧
      (∀ d ∈ scanStructure sections text,
        d.severity = Severity.high ∧ d.dtype = dtStructure) ∧
      ((∀ s ∈ sections, containsCI s text = true) → scanStructure sections text = []) := by
  refine ⟨scanStructure_eq sections text, ?_, ?_⟩
  · intro d hd
    rw [scanStructure_eq] at hd
    obtain ⟨s, _, rfl⟩ := List.mem_map.mp hd
    exact ⟨rfl, rfl⟩
  · intro hall
    rw [scanStructure_eq]
    have : (sections.filter fun s => !containsCI s text) = [] := by
      apply List.filter_eq_nil_iff.mpr
      intro s hs
      simp [hall s hs]
    rw [this, List.map_nil]

/-- Text of the C4 witness, containing all five basic mandatory sections. -/
def c4text : List Char :=
  "Introduction Scope of Work Assumptions Acceptance Criteria Out of Scope".toList

/-- C4 witness: a document text containing every configured section yields an
empty structure-defect list. -/
theorem c4_scan_structure_witness :
    (∀ s ∈ MANDATORY_SECTIONS_BASIC, containsCI s c4text = true) ∧
      scanStructure MANDATORY_SECTIONS_BASIC c4text = [] :=
  ⟨by decide, (c4_scan_structure MANDATORY_SECTIONS_BASIC c4text).2.2 (by decide)⟩

theorem paraPlaceholder_eq (pats : List PatternSpec) (i : Nat) (p : List Char) :
    paraPlaceholderDefects pats i p =
      (pats.filter fun pat => (firstMatch pat p).isSome).map
        (fun pat => placeholderDefect ((firstMatch pat p).getD []) (i + 1)) := by
  induction pats with
  | nil => rfl
  | cons pat rest ih =>
    simp only [paraPlaceholderDefects] at ih ⊢
    rw [List.filterMap_cons, List.filter_cons]
    cases hm : firstMatch pat p with
    | none => simp [hm, ih]
    | some m => simp [hm, ih]

theorem mem_paraPlaceholder {pats : List PatternSpec} {i : Nat} {p : List Char}
    {d : Defect} (h : d ∈ paraPlaceholderDefects pats i p) :
    d.severity = Severity.medium ∧ d.dtype = dtPlaceholder ∧
      d.location = Location.paragraph (i + 1) := by
  rw [paraPlaceholder_eq] at h
  obtain ⟨pat, _, rfl⟩ := List.mem_map.mp h
  exact ⟨rfl, rfl, rfl⟩

theorem mem_phScanAux {pats : List PatternSpec} {d : Defect} :
    ∀ {paras : List (List Char)} {n : Nat}, d ∈ phScanAux pats n paras →
      d.severity = Severity.medium ∧ d.dtype = dtPlaceholder ∧
        ∃ j, n ≤ j ∧ d.location = Location.paragraph (j + 1) := by
  intro paras
  induction paras with
  | nil => exact fun h => absurd h (List.not_mem_nil d)
  | cons p rest ih =>
    intro n h
    rw [phScanAux] at h
    rcases List.mem_append.mp h with h1 | h2
    · obtain ⟨hs, ht, hl⟩ := mem_paraPlaceholder h1
      exact ⟨hs, ht, n, le_refl n, hl⟩
    · obtain ⟨hs, ht, j, hj, hl⟩ := ih h2
      exact ⟨hs, ht, j, by omega, hl⟩

theorem phScanAux_filter (pats : List PatternSpec) :
    ∀ (paras : List (List Char)) (n i : Nat) (h : i < paras.length),
      (phScanAux pats n paras).filter
          (fun d => decide (d.location = Location.paragraph (n + i + 1))) =
        paraPlaceholderDefects pats (n + i) (paras.get ⟨i, h⟩) := by
  intro paras
  induction paras with
  | nil => intro n i h; exact absurd h (by simp)
  | cons p rest ih =>
    intro n i h
    rw [phScanAux, List.filter_append]
    cases i with
    | zero =>
      have hhead : (paraPlaceholderDefects pats n p).filter
          (fun d => decide (d.location = Location.paragraph (n + 0 + 1))) =
          paraPlaceholderDefects pats n p := by
        apply List.filter_eq_self.mpr
        intro d hd
        simp [(mem_paraPlaceholder hd).2.2]
      have htail : (phScanAux pats (n + 1) rest).filter
          (fun d => decide (d.location = Location.paragraph (n + 0 + 1))) = [] := by
        apply List.filter_eq_nil_iff.mpr
        intro d hd
        obtain ⟨_, _, j, hj, hl⟩ := mem_phScanAux hd
        simp only [hl, decide_eq_true_eq, Location.paragraph.injEq]
        omega
      rw [hhead, htail, List.append_nil]
      rfl
    | succ ix =>
      have hhead : (paraPlaceholderDefects pats n p).filter
          (fun d => decide (d.location = Location.paragraph (n + (ix + 1) + 1))) = [] := by
        apply List.filter_eq_nil_iff.mpr
        intro d hd
        have hl := (mem_paraPlaceholder hd).2.2
        simp only [hl, decide_eq_true_eq, Location.paragraph.injEq]
        omega
      rw [hhead, List.nil_append]
      have hx : ix < rest.length := by simpa using Nat.lt_of_succ_lt_succ h
      rw [show n + (ix + 1) = (n + 1) + ix from by omega]
      exact ih (n + 1) ix hx

/-- C2: for every paragraph sequence and configured pattern list, the
placeholder scan emits, for paragraph i, exactly one PlaceholderFound defect
per matching pattern (one per pattern even for repeated occurrences, using
the first match), at severity Medium, with location the 1-based paragraph
index. -/
theorem c2_scan_placeholders (pats : List PatternSpec) (paras : List (List Char))
    (i : Nat) (h : i < paras.length) :
    (scanPlaceholders pats paras).filter
        (fun d => decide (d.location = Location.paragraph (i + 1))) =
      (pats.filter fun pat => (firstMatch pat (paras.get ⟨i, h⟩)).isSome).map
        (fun pat => placeholderDefect ((firstMatch pat (paras.get ⟨i, h⟩)).getD []) (i + 1)) ∧
      ∀ d ∈ scanPlaceholders pats paras,
        d.severity = Severity.medium ∧ d.dtype = dtPlaceholder := by
  constructor
  · rw [scanPlaceholders]
    have h0 := phScanAux_filter pats paras 0 i h
    rw [Nat.zero_add] at h0
    rw [h0, paraPlaceholder_eq]
  · intro d hd
    rw [scanPlaceholders] at hd
    obtain ⟨hs, ht, _⟩ := mem_phScanAux hd
    exact ⟨hs, ht⟩

/-- C2 witness: the paragraph of the witness run. -/
def c2para : List Char := "a TBD here".toList

/-- C2 witness: one matching pattern in one paragraph produces exactly its
one Medium defect at paragraph index 1. -/
theorem c2_scan_placeholders_witness :
    (0 < ([c2para] : List (List Char)).length) ∧
      (scanPlaceholders PLACEHOLDER_KEYWORDS [c2para]).filter
          (fun d => decide (d.location = Location.paragraph 1)) =
        (PLACEHOLDER_KEYWORDS.filter fun pat => (firstMatch pat c2para).isSome).map
          (fun pat => placeholderDefect ((firstMatch pat c2para).getD []) 1) :=
  ⟨by decide, (c2_scan_placeholders PLACEHOLDER_KEYWORDS [c2para] 0 (by decide)).1⟩

theorem mem_lengthDefectsFor {i : Nat} {p : List Char} {d : Defect}
    (h : d ∈ lengthDefectsFor i p) :
    d.severity = Severity.low ∧ d.dtype = dtReadability ∧
      d.location = Location.paragraph (i + 1) := by
  unfold lengthDefectsFor at h
  by_cases hc : countWords p > MAX_WORDS
  · rw [if_pos hc] at h
    simp only [List.mem_singleton] at h
    subst h
    exact ⟨rfl, rfl, rfl⟩
  · rw [if_neg hc] at h
    exact absurd h (List.not_mem_nil d)

theorem mem_lenScanAux {d : Defect} :
    ∀ {paras : List (List Char)} {n : Nat}, d ∈ lenScanAux n paras →
      d.severity = Severity.low ∧ d.dtype = dtReadability ∧
        ∃ j, n ≤ j ∧ d.location = Location.paragraph (j + 1) := by
  intro paras
  induction paras with
  | nil => exact fun h => absurd h (List.not_mem_nil d)
  | cons p rest ih =>
    intro n h
    rw [lenScanAux] at h
    rcases List.mem_append.mp h with h1 | h2
    · obtain ⟨hs, ht, hl⟩ := mem_lengthDefectsFor h1
      exact ⟨hs, ht, n, le_refl n, hl⟩
    · obtain ⟨hs, ht, j, hj, hl⟩ := ih h2
      exact ⟨hs, ht, j, by omega, hl⟩

theorem lenScanAux_filter :
    ∀ (paras : List (List Char)) (n i : Nat) (h : i < paras.length),
      (lenScanAux n paras).filter
          (fun d => decide (d.location = Location.paragraph (n + i + 1))) =
        lengthDefectsFor (n + i) (paras.get ⟨i, h⟩) := by
  intro paras
  induction paras with
  | nil => intro n i h; exact absurd h (by simp)
  | cons p rest ih =>
    intro n i h
    rw [lenScanAux, List.filter_append]
    cases i with
    | zero =>
      have hhead : (lengthDefectsFor n p).filter
          (fun d => decide (d.location = Location.paragraph (n + 0 + 1))) =
          lengthDefectsFor n p := by
        apply List.filter_eq_self.mpr
        intro d hd
        simp [(mem_lengthDefectsFor hd).2.2]
      have htail : (lenScanAux (n + 1) rest).filter
          (fun d => decide (d.location = Location.paragraph (n + 0 + 1))) = [] := by
        apply List.filter_eq_nil_iff.mpr
        intro d hd
        obtain ⟨_, _, j, hj, hl⟩ := mem_lenScanAux hd
        simp only [hl, decide_eq_true_eq, Location.paragraph.injEq]
        omega
      rw [hhead, htail, List.append_nil]
      rfl
    | succ ix =>
      have hhead : (lengthDefectsFor n p).filter
          (fun d => decide (d.location = Location.paragraph (n + (ix + 1) + 1))) = [] := by
        apply List.filter_eq_nil_iff.mpr
        intro d hd
        have hl := (mem_lengthDefectsFor hd).2.2
        simp only [hl, decide_eq_true_eq, Location.paragraph.injEq]
        omega
      rw [hhead, List.nil_append]
      have hx : ix < rest.length := by simpa using Nat.lt_of_succ_lt_succ h
      rw [show n + (ix + 1) = (n + 1) + ix from by omega]
      exact ih (n + 1) ix hx

/-- C5: the paragraph-length scan emits a ParagraphTooLong (Readability)
defect at severity Low for paragraph i exactly when its whitespace word count
strictly exceeds MAX_WORDS (150); at exactly MAX_WORDS no defect is
emitted. -/
theorem c5_paragraph_length (paras : List (List Char)) (i : Nat) (h : i < paras.length) :
    ((scanParagraphLength paras).filter
        (fun d => decide (d.location = Location.paragraph (i + 1))) =
      if countWords (paras.get ⟨i, h⟩) > MAX_WORDS then
        [lengthDefect (countWords (paras.get ⟨i, h⟩)) (i + 1)]
      else []) ∧
      (countWords (paras.get ⟨i, h⟩) = MAX_WORDS →
        (scanParagraphLength paras).filter
          (fun d => decide (d.location = Location.paragraph (i + 1))) = []) ∧
      ∀ d ∈ scanParagraphLength paras,
        d.severity = Severity.low ∧ d.dtype = dtReadability := by
  have hmain : (scanParagraphLength paras).filter
      (fun d => decide (d.location = Location.paragraph (i + 1))) =
      lengthDefectsFor i (paras.get ⟨i, h⟩) := by
    rw [scanParagraphLength]
    have h0 := lenScanAux_filter paras 0 i h
    rw [Nat.zero_add] at h0
    exact h0
  refine ⟨?_, ?_, ?_⟩
  · rw [hmain, lengthDefectsFor]
  · intro heq
    rw [hmain, lengthDefectsFor, if_neg (by omega)]
  · intro d hd
    rw [scanParagraphLength] at hd
    obtain ⟨hs, ht, _⟩ := mem_lenScanAux hd
    exact ⟨hs, ht⟩

/-- C5 witness: a paragraph of exactly MAX_WORDS words. -/
def c5para : List Char := (List.replicate 150 ['w', ' ']).flatten

set_option maxRecDepth 8192 in
/-- C5 witness: the boundary case w = 150 emits no defect. -/
theorem c5_paragraph_length_witness :
    (0 < ([c5para] : List (List Char)).length) ∧ countWords c5para = MAX_WORDS ∧
      (scanParagraphLength [c5para]).filter
        (fun d => decide (d.location = Location.paragraph 1)) = [] :=
  ⟨by decide, by decide,
    (c5_paragraph_length [c5para] 0 (by decide)).2.1 (by decide)⟩

/-- C8: a CustomGoal row is emitted exactly when the goal string is
non-empty; it is Fail when a CustomGoalFinding exists among the
collaborator's findings (with that finding's description as remark) and Pass
otherwise, with a remark echoing the goal text. -/
theorem c8_custom_goal (rule llm : List Defect) (goal : List Char) :
    ((consolidate rule llm goal).filter (fun r => decide (r.pattern = patCustom)) =
      if goal.isEmpty then []
      else
        match customGoalDefectsOf llm with
        | d :: _ => [⟨patCustom, elGoalName goal, Res.fail, d.description⟩]
        | [] => [⟨patCustom, elGoalName goal, Res.pass, goalPassRemark goal⟩]) ∧
      ∃ u v, goalPassRemark goal = u ++ goal ++ v := by
  constructor
  · rw [consolidate, List.filter_append, List.filter_append, List.filter_append,
      List.filter_append,
      filter_pattern_nil patCustom (fun r hr => (mem_structureRows hr).1) (by decide),
      filter_pattern_nil patCustom (fun r hr => (mem_qualityRows hr).1) (by decide),
      filter_pattern_nil patCustom (fun r hr => (mem_qualRows hr).1) (by decide),
      filter_pattern_nil patCustom (fun r hr => (mem_toolRows hr).1) (by decide)]
    have hself : (goalRows llm goal).filter (fun r => decide (r.pattern = patCustom)) =
        goalRows llm goal := by
      apply List.filter_eq_self.mpr
      intro r hr
      simp [(mem_goalRows hr).1]
    simp only [List.nil_append, List.append_nil, hself]
    rw [goalRows]
  · exact ⟨"Document meets the custom analysis goal: ".toList ++ [dquo],
      [dquo] ++ ".".toList, by simp [goalPassRemark, List.append_assoc]⟩

theorem filter_pattern_self {l : List Row} {base : List Char}
    (hbase : ∀ r ∈ l, r.pattern = base) :
    l.filter (fun r => decide (r.pattern = base)) = l := by
  apply List.filter_eq_self.mpr
  intro r hr
  simp [hbase r hr]

theorem structureRows_length (rule : List Defect) : (structureRows rule).length = 1 := by
  by_cases hm : (missingSections rule).isEmpty <;> simp [structureRows, hm]

theorem qualityRows_length (rule : List Defect) : (qualityRows rule).length = 1 := by
  by_cases hm : (placeholderDefectsOf rule).isEmpty <;> simp [qualityRows, hm]

theorem llmErrors_mock (ft goal : List Char) :
    llmErrorsOf (llm_based_analysis ft goal) = [] := by
  have e1 : (decide (dtClarity = dtLLMError) || decide (dtClarity = dtContentLength)) = false := by
    decide
  have e2 : (decide (dtTone = dtLLMError) || decide (dtTone = dtContentLength)) = false := by
    decide
  have e3 : (decide (dtConsistency = dtLLMError) ||
      decide (dtConsistency = dtContentLength)) = false := by
    decide
  have e4 : (decide (dtCustomGoal = dtLLMError) ||
      decide (dtCustomGoal = dtContentLength)) = false := by
    decide
  by_cases hg : goal.isEmpty <;>
    simp [llm_based_analysis, llmErrorsOf, hg, List.filter, e1, e2, e3, e4]

theorem analyze_ok (paras : List (List Char)) (goal : List Char) :
    analyze_document (Except.ok paras) goal =
      (consolidate (rule_based_analysis paras)
        (if (fullTextOf paras).length > 50 then llm_based_analysis (fullTextOf paras) goal
         else [contentLengthDefect]) goal,
       rule_based_analysis paras ++
         (if (fullTextOf paras).length > 50 then llm_based_analysis (fullTextOf paras) goal
          else [contentLengthDefect]).filter fun d =>
           decide (¬ (d.dtype = dtLLMError ∨ d.dtype = dtContentLength))) := rfl

/-- C3 (amended): for a successfully loaded document, the ToolStatus row is
emitted with result CriticalFail exactly when the joined content length is at
most 50 characters (the code skips the qualitative step unless the length is
strictly greater than 50).  In the skipped case no QualitativeAnalysis row is
emitted while DocumentStructure and ContentQuality rows are still computed;
above the threshold the ToolStatus row is omitted. -/
theorem c3_tool_status_amended (paras : List (List Char)) (goal : List Char) :
    ((fullTextOf paras).length ≤ 50 →
      (analyze_document (Except.ok paras) goal).1.filter
          (fun r => decide (r.pattern = patToolStatus)) =
        [⟨patToolStatus, elLLMAgent, Res.criticalFail, contentLengthDefect.description⟩] ∧
      (analyze_document (Except.ok paras) goal).1.filter
          (fun r => decide (r.pattern = patQualitative)) = [] ∧
      ((analyze_document (Except.ok paras) goal).1.filter
          (fun r => decide (r.pattern = patDocStructure))).length = 1 ∧
      ((analyze_document (Except.ok paras) goal).1.filter
          (fun r => decide (r.pattern = patContentQuality))).length = 1) ∧
    ((fullTextOf paras).length > 50 →
      (analyze_document (Except.ok paras) goal).1.filter
        (fun r => decide (r.pattern = patToolStatus)) = []) := by
  constructor
  · intro hle
    have hnotgt : ¬ (fullTextOf paras).length > 50 := by omega
    have hrows : (analyze_document (Except.ok paras) goal).1 =
        consolidate (rule_based_analysis paras) [contentLengthDefect] goal := by
      rw [analyze_ok]
      simp [hnotgt]
    refine ⟨?_, ?_, ?_, ?_⟩
    · rw [hrows, consolidate, List.filter_append, List.filter_append, List.filter_append,
        List.filter_append,
        filter_pattern_nil patToolStatus (fun r hr => (mem_structureRows hr).1) (by decide),
        filter_pattern_nil patToolStatus (fun r hr => (mem_qualityRows hr).1) (by decide),
        filter_pattern_nil patToolStatus (fun r hr => (mem_qualRows hr).1) (by decide),
        filter_pattern_nil patToolStatus (fun r hr => (mem_goalRows hr).1) (by decide)]
      simp only [List.nil_append]
      decide
    · rw [hrows, consolidate, List.filter_append, List.filter_append, List.filter_append,
        List.filter_append,
        filter_pattern_nil patQualitative (fun r hr => (mem_structureRows hr).1) (by decide),
        filter_pattern_nil patQualitative (fun r hr => (mem_qualityRows hr).1) (by decide),
        filter_pattern_nil patQualitative (fun r hr => (mem_goalRows hr).1) (by decide),
        filter_pattern_nil patQualitative (fun r hr => (mem_toolRows hr).1) (by decide),
        show qualRows [contentLengthDefect] = [] from by decide]
      simp
    · rw [hrows, consolidate, List.filter_append, List.filter_append, List.filter_append,
        List.filter_append,
        filter_pattern_self (fun r hr => (mem_structureRows hr).1),
        filter_pattern_nil patDocStructure (fun r hr => (mem_qualityRows hr).1) (by decide),
        filter_pattern_nil patDocStructure (fun r hr => (mem_qualRows hr).1) (by decide),
        filter_pattern_nil patDocStructure (fun r hr => (mem_goalRows hr).1) (by decide),
        filter_pattern_nil patDocStructure (fun r hr => (mem_toolRows hr).1) (by decide)]
      simp [structureRows_length]
    · rw [hrows, consolidate, List.filter_append, List.filter_append, List.filter_append,
        List.filter_append,
        filter_pattern_self (fun r hr => (mem_qualityRows hr).1),
        filter_pattern_nil patContentQuality (fun r hr => (mem_structureRows hr).1) (by decide),
        filter_pattern_nil patContentQuality (fun r hr => (mem_qualRows hr).1) (by decide),
        filter_pattern_nil patContentQuality (fun r hr => (mem_goalRows hr).1) (by decide),
        filter_pattern_nil patContentQuality (fun r hr => (mem_toolRows hr).1) (by decide)]
      simp [qualityRows_length]
  · intro hgt
    have hrows : (analyze_document (Except.ok paras) goal).1 =
        consolidate (rule_based_analysis paras)
          (llm_based_analysis (fullTextOf paras) goal) goal := by
      rw [analyze_ok]
      simp [hgt]
    rw [hrows, consolidate, List.filter_append, List.filter_append, List.filter_append,
      List.filter_append,
      filter_pattern_nil patToolStatus (fun r hr => (mem_structureRows hr).1) (by decide),
      filter_pattern_nil patToolStatus (fun r hr => (mem_qualityRows hr).1) (by decide),
      filter_pattern_nil patToolStatus (fun r hr => (mem_qualRows hr).1) (by decide),
      filter_pattern_nil patToolStatus (fun r hr => (mem_goalRows hr).1) (by decide),
      toolRows_skip (llmErrors_mock (fullTextOf paras) goal)]
    simp

/-- C3 counterexample input: a single paragraph of exactly 50 characters. -/
def c3paras : List (List Char) := [List.replicate 50 'a']

set_option maxRecDepth 8192 in
/-- C3 counterexample: at content length exactly 50 — not below the
threshold — the code still skips the qualitative step and emits the
CriticalFail ToolStatus row, against the claim that the row is emitted only
below 50 and omitted at or above it. -/
theorem c3_counterexample :
    (fullTextOf c3paras).length = 50 ∧
      (analyze_document (Except.ok c3paras) []).1.filter
          (fun r => decide (r.pattern = patToolStatus)) =
        [⟨patToolStatus, elLLMAgent, Res.criticalFail, contentLengthDefect.description⟩] :=
  ⟨by decide, by decide⟩

/-- C3 witness input: a single paragraph of 51 characters. -/
def c3paras2 : List (List Char) := [List.replicate 51 'a']

set_option maxRecDepth 8192 in
/-- C3 witness: above the threshold the ToolStatus row is omitted. -/
theorem c3_tool_status_amended_witness :
    (fullTextOf c3paras2).length > 50 ∧
      (analyze_document (Except.ok c3paras2) []).1.filter
        (fun r => decide (r.pattern = patToolStatus)) = [] :=
  ⟨by decide, (c3_tool_status_amended c3paras2 []).2 (by decide)⟩

/-- C6: when document loading fails the analyzer short-circuits: the output
is exactly one CriticalFail summary row (the ToolStatus row of the failure
semantics, Pattern `File Loading`) and an empty defect list; no scan step
contributes anything. -/
theorem c6_load_failure (e goal : List Char) :
    analyze_document (Except.error e) goal = ([loadFailRow e], []) ∧
      (loadFailRow e).result = Res.criticalFail ∧
      categoryOfPattern (loadFailRow e).pattern = some Category.toolStatus :=
  ⟨rfl, rfl, (by decide : categoryOfPattern patFileLoading = some Category.toolStatus)⟩
